import Mathlib

/-!
Verification of the request-shaping guard layer of the Azure DevOps Server
MCP repository: the sliding-window rate limiter, the request payload size
guard, and the uniform error normalizer defined in `adosmcp/decorators.py`,
together with their composition on the guarded operations of
`adosmcp/AzureDevOpsWorkItems.py` (decorator stack
`request_size_limit` -> `rate_limit` -> `azure_devops_error_handler`).

Timestamps (`time.time()` values) are modelled as integers (the rate
limiter only compares timestamps and subtracts the constant 60, so its
behavior is purely order-theoretic), Python string operations are modelled
by kernel-executable counterparts over the character data of Lean strings,
and the process-wide `_rate_limit_storage` defaultdict is modelled as a
total function from keys to timestamp lists (oldest first, matching the
deque).
-/

deriving instance DecidableEq for Except

namespace ADOS

open List

/-- A Python argument value as seen by the guard layer: a string (the only
kind the size guard inspects), a non-string object carrying its class name
(relevant to the error handler's context derivation from `args[0]`), or any
other non-string value carrying opaque data. -/
inductive PyVal where
  | str (s : String)
  | obj (className : String)
  | other (data : Nat)
deriving DecidableEq

/-- Python `value.__class__.__name__` for a modelled value. -/
def pyClassName : PyVal → String
  | .str _ => "str"
  | .obj c => c
  | .other _ => "int"

/-- Python `value` is a string, and which one (`isinstance(value, str)`). -/
def PyVal.strVal : PyVal → Option String
  | .str s => some s
  | _ => none

/-- Fuel-driven worker for `pyReplace`: replaces non-overlapping occurrences
of `pattern` left to right, exactly as Python `str.replace` does for a
nonempty pattern. The fuel is the length of the remaining text, which
suffices because each step consumes at least one character. -/
def pyReplaceAux (pattern repl : List Char) : Nat → List Char → List Char
  | _, [] => []
  | 0, s => s
  | fuel + 1, c :: cs =>
    if pattern.isPrefixOf (c :: cs) then
      repl ++ pyReplaceAux pattern repl fuel ((c :: cs).drop pattern.length)
    else
      c :: pyReplaceAux pattern repl fuel cs

/-- Python `s.replace(pattern, repl)`: every non-overlapping occurrence,
scanned left to right (faithful for the nonempty patterns used in the
source: `"AzureDevOps"` and `"_"`). -/
def pyReplace (s pattern repl : String) : String :=
  ⟨pyReplaceAux pattern.data repl.data s.data.length s.data⟩

/-- Python `s.lower()` (the class names it is applied to are ASCII). -/
def pyLower (s : String) : String := ⟨s.data.map Char.toLower⟩

/-- Python `s.startswith(p)`. -/
def pyStartsWith (s p : String) : Bool := p.data.isPrefixOf s.data

/-- Outcome of the single wrapped backend invocation
`await func(*args, **kwargs)`: a result value, an
`AzureDevOpsServiceError` carrying the given message, or any other
exception carrying the given message. -/
inductive BackendOutcome (α : Type) where
  | ok (v : α)
  | azureError (msg : String)
  | otherError (msg : String)

/-- Context label derivation of `azure_devops_error_handler`
(decorators.py lines 18-25): when the call has a first positional argument
(`self`) whose class name starts with `"AzureDevOps"`, the label is
`" in "` followed by the class name with all `"AzureDevOps"` occurrences
removed and the remainder lower-cased; otherwise it is empty. -/
def contextOf (args : List PyVal) : String :=
  match args with
  | [] => ""
  | a :: _ =>
    let class_name := pyClassName a
    if pyStartsWith class_name "AzureDevOps" then
      " in " ++ pyLower (pyReplace class_name "AzureDevOps" "")
    else ""

/-- Error normalizer `azure_devops_error_handler` (decorators.py lines
10-36): passes a successful result through unchanged; rewraps an
`AzureDevOpsServiceError` as `"Failed to <name><context>: <msg>"` and any
other exception as `"Unexpected error in <name><context>: <msg>"`, where
`<name>` is the function name with underscores replaced by spaces. -/
def azure_devops_error_handler {α : Type} (func_name : String) (args : List PyVal)
    (outcome : BackendOutcome α) : Except String α :=
  let context := contextOf args
  match outcome with
  | .ok v => .ok v
  | .azureError e =>
    .error ("Failed to " ++ pyReplace func_name "_" " " ++ context ++ ": " ++ e)
  | .otherError e =>
    .error ("Unexpected error in " ++ pyReplace func_name "_" " " ++ context ++ ": " ++ e)

/-- The process-wide `_rate_limit_storage` defaultdict: every key maps to a
timestamp list, oldest first, with `[]` as the default. -/
abbrev RateLimitStorage := String → List ℤ

/-- Storage at process start: every key is empty. -/
def emptyStorage : RateLimitStorage := fun _ => []

/-- Head-trimming loop of `rate_limit` (decorators.py lines 64-65):
`while request_times and request_times[0] < window_start:
request_times.popleft()`. -/
def trimOld (window_start : ℤ) : List ℤ → List ℤ
  | [] => []
  | t :: ts => if t < window_start then trimOld window_start ts else t :: ts

/-- One admission decision of `rate_limit` on a single key's deque
(decorators.py lines 59-73): trim records older than `current_time - 60`,
reject when at least `requests_per_minute` records remain (leaving the
trimmed deque in place), otherwise append `current_time` and admit. -/
def admitStep (requests_per_minute : Nat) (current_time : ℤ) (l : List ℤ) :
    Bool × List ℤ :=
  let request_times := trimOld (current_time - 60) l
  if requests_per_minute ≤ request_times.length then
    (false, request_times)
  else
    (true, request_times ++ [current_time])

/-- The `rate_limit` wrapper acting on the shared storage, keyed by the
wrapped function's name (decorators.py lines 43-78). Returns whether the
call was admitted together with the updated storage. -/
def rate_limit (requests_per_minute : Nat) (func_name : String) (current_time : ℤ)
    (storage : RateLimitStorage) : Bool × RateLimitStorage :=
  let s := admitStep requests_per_minute current_time (storage func_name)
  (s.1, Function.update storage func_name s.2)

/-- Size test applied to one value by `request_size_limit`
(decorators.py lines 95 and 100):
`isinstance(arg, str) and len(arg.encode('utf-8')) > max_bytes`. -/
def oversized (max_bytes : Nat) : PyVal → Bool
  | .str s => decide (max_bytes < s.utf8ByteSize)
  | _ => false

/-- The `request_size_limit` wrapper (decorators.py lines 81-107): true
exactly when the call is rejected, i.e. when some positional argument after
`self` or some keyword argument is an oversized string, with
`max_bytes = max_size_mb * 1024 * 1024`. -/
def request_size_limit_rejects (max_size_mb : Nat) (args : List PyVal)
    (kwargs : List (String × PyVal)) : Bool :=
  let max_bytes := max_size_mb * 1024 * 1024
  (args.drop 1).any (oversized max_bytes) || kwargs.any (fun kv => oversized max_bytes kv.2)

/-- The three failure kinds a guarded call can surface: a size rejection
carrying the configured megabyte budget, a rate rejection carrying the
configured quota, or a failure normalized by the error handler. -/
inductive GuardError where
  | payloadTooLarge (max_size_mb : Nat)
  | rateLimitExceeded (requests_per_minute : Nat)
  | normalized (msg : String)
deriving DecidableEq

/-- Message text each failure kind carries, as raised in the source
(decorators.py lines 97/102, line 70, and lines 31/34). -/
def GuardError.message : GuardError → String
  | .payloadTooLarge mb =>
    "Request data too large. Maximum " ++ toString mb ++ "MB allowed."
  | .rateLimitExceeded q =>
    "Rate limit exceeded. Maximum " ++ toString q ++ " requests per minute allowed."
  | .normalized m => m

/-- Observable outcome of one guarded invocation: the returned value or
surfaced failure, the rate-limit storage afterwards, and how many times the
wrapped backend operation was invoked. -/
structure CallOutcome (α : Type) where
  result : Except GuardError α
  storage : RateLimitStorage
  backendCalls : Nat

/-- The full decorator stack as applied to `create_work_item` and
`update_work_item` in AzureDevOpsWorkItems.py (lines 70-73 and 114-116),
generalized over the configured budgets:
`request_size_limit(max_size_mb)` runs first, then
`rate_limit(requests_per_minute)`, then `azure_devops_error_handler`
around the single backend invocation. Failures of the outer two wrappers
are raised before the error handler's try block is ever entered, so they
are not rewritten by it. -/
def guarded_call {α : Type} (max_size_mb requests_per_minute : Nat) (func_name : String)
    (args : List PyVal) (kwargs : List (String × PyVal)) (current_time : ℤ)
    (backend : BackendOutcome α) (storage : RateLimitStorage) : CallOutcome α :=
  if request_size_limit_rejects max_size_mb args kwargs then
    ⟨.error (.payloadTooLarge max_size_mb), storage, 0⟩
  else
    let r := rate_limit requests_per_minute func_name current_time storage
    if r.1 then
      match azure_devops_error_handler func_name args backend with
      | .ok v => ⟨.ok v, r.2, 1⟩
      | .error m => ⟨.error (.normalized m), r.2, 1⟩
    else
      ⟨.error (.rateLimitExceeded requests_per_minute), r.2, 0⟩

/-- Run of a sequence of `rate_limit` admissions at the given times on one
key's deque, recording for each call whether it was admitted. -/
def runKey (quota : Nat) : List ℤ → List ℤ → List (ℤ × Bool) × List ℤ
  | [], l => ([], l)
  | t :: ts, l =>
    let s := admitStep quota t l
    let r := runKey quota ts s.2
    ((t, s.1) :: r.1, r.2)

/-- Times of the admitted calls in a run log. -/
def admittedOf (log : List (ℤ × Bool)) : List ℤ :=
  (log.filter (fun e => e.2)).map (fun e => e.1)

/-- Whole-process trace of rate-limited calls: each entry is an operation
key and a call time, and each key has its configured quota. -/
def runCalls (quotaOf : String → Nat) : List (String × ℤ) → RateLimitStorage → RateLimitStorage
  | [], st => st
  | c :: rest, st => runCalls quotaOf rest (rate_limit (quotaOf c.1) c.1 c.2 st).2

/-- Call times of the trace entries touching key `k`, in trace order. -/
def keyTimes (k : String) (trace : List (String × ℤ)) : List ℤ :=
  (trace.filter (fun c => c.1 == k)).map (fun c => c.2)

/-! Basic facts about the trimming loop. -/

theorem trimOld_suffix (w : ℤ) (l : List ℤ) : trimOld w l <:+ l := by
  induction l with
  | nil => exact List.suffix_rfl
  | cons x xs ih =>
    rw [trimOld]
    by_cases h : x < w
    · rw [if_pos h]
      exact ih.trans (List.suffix_cons x xs)
    · rw [if_neg h]

theorem trimOld_sublist (w : ℤ) (l : List ℤ) : trimOld w l <+ l :=
  (trimOld_suffix w l).sublist

theorem trimOld_length_le (w : ℤ) (l : List ℤ) : (trimOld w l).length ≤ l.length :=
  (trimOld_sublist w l).length_le

theorem trimOld_subset (w : ℤ) (l : List ℤ) : ∀ x ∈ trimOld w l, x ∈ l :=
  fun _ hx => (trimOld_sublist w l).subset hx

/-- On a time-ordered deque the head-trimming loop removes exactly the
records strictly older than the window start. -/
theorem trimOld_eq_filter (w : ℤ) (l : List ℤ) (h : l.Sorted (· ≤ ·)) :
    trimOld w l = l.filter (fun x => decide (w ≤ x)) := by
  induction l with
  | nil => rfl
  | cons x xs ih =>
    rcases List.pairwise_cons.mp h with ⟨hx, hxs⟩
    rw [trimOld, List.filter_cons]
    by_cases hxw : x < w
    · rw [if_pos hxw]
      have hd : (decide (w ≤ x)) = false := by
        simp only [decide_eq_false_iff_not]
        omega
      rw [hd, if_neg (by simp)]
      exact ih hxs
    · rw [if_neg hxw]
      have hwx : w ≤ x := by omega
      have hd : (decide (w ≤ x)) = true := by
        simp only [decide_eq_true_eq]
        exact hwx
      rw [hd, if_pos rfl]
      have : xs.filter (fun y => decide (w ≤ y)) = xs := by
        apply List.filter_eq_self.mpr
        intro a ha
        simp only [decide_eq_true_eq]
        exact le_trans hwx (hx a ha)
      rw [this]

/-- The trimming loop removes nothing when every record is inside the
window. -/
theorem trimOld_eq_self (w : ℤ) (l : List ℤ) (h : ∀ x ∈ l, w ≤ x) :
    trimOld w l = l := by
  cases l with
  | nil => rfl
  | cons x xs =>
    rw [trimOld, if_neg]
    simp only [not_lt]
    exact h x (List.mem_cons_self x xs)

/-! Basic facts about a single admission step. -/

/-- Structure of one admission step: the new deque is the trimmed old deque
(trimmed only from the head), with the current time appended at the tail
exactly when the call is admitted. -/
theorem admitStep_structure (q : Nat) (t : ℤ) (l : List ℤ) :
    (admitStep q t l).2 =
      trimOld (t - 60) l ++ (if (admitStep q t l).1 then [t] else []) := by
  rw [admitStep]
  by_cases h : q ≤ (trimOld (t - 60) l).length
  · rw [if_pos h]
    simp
  · rw [if_neg h]
    simp

/-- The admission test succeeds exactly when the trimmed deque holds fewer
than `q` records. -/
theorem admitStep_fst (q : Nat) (t : ℤ) (l : List ℤ) :
    (admitStep q t l).1 = decide ((trimOld (t - 60) l).length < q) := by
  rw [admitStep]
  by_cases h : q ≤ (trimOld (t - 60) l).length
  · rw [if_pos h]
    have hd : decide ((trimOld (t - 60) l).length < q) = false := by
      simp only [decide_eq_false_iff_not]
      omega
    rw [hd]
  · rw [if_neg h]
    have hd : decide ((trimOld (t - 60) l).length < q) = true := by
      simp only [decide_eq_true_eq]
      omega
    rw [hd]

/-- One step keeps the combined list `deque ++ pending future times`
sorted. -/
theorem admitStep_sorted (q : Nat) (t : ℤ) (l ts : List ℤ)
    (h : (l ++ t :: ts).Sorted (· ≤ ·)) :
    ((admitStep q t l).2 ++ ts).Sorted (· ≤ ·) := by
  rw [admitStep_structure]
  by_cases hb : (admitStep q t l).1
  · rw [if_pos hb, List.append_assoc, List.singleton_append]
    exact h.sublist (List.Sublist.append (trimOld_sublist _ l) (List.Sublist.refl _))
  · rw [if_neg hb, List.append_nil]
    exact h.sublist (List.Sublist.append (trimOld_sublist _ l)
      (List.sublist_cons_self t ts))

/-! Invariants of a run of admissions on one key. -/

/-- Reachable deques never hold more than `quota` records in total. -/
theorem runKey_length (quota : Nat) (ts l : List ℤ) (h : l.length ≤ quota) :
    ((runKey quota ts l).2).length ≤ quota := by
  induction ts generalizing l with
  | nil => exact h
  | cons t ts ih =>
    rw [runKey]
    apply ih
    rw [admitStep]
    by_cases hb : quota ≤ (trimOld (t - 60) l).length
    · rw [if_pos hb]
      exact le_trans (trimOld_length_le _ l) h
    · rw [if_neg hb]
      rw [List.length_append, List.length_singleton]
      omega

/-- A run on pending times that are sorted and later than the whole deque
keeps the deque sorted. -/
theorem runKey_sorted (quota : Nat) (ts l : List ℤ)
    (h : (l ++ ts).Sorted (· ≤ ·)) : ((runKey quota ts l).2).Sorted (· ≤ ·) := by
  induction ts generalizing l with
  | nil => simpa using h
  | cons t ts ih =>
    rw [runKey]
    exact ih _ (admitStep_sorted quota t l ts h)

/-- Every admitted time of a run is one of the requested call times. -/
theorem admittedOf_runKey_subset (quota : Nat) (ts l : List ℤ) :
    ∀ u ∈ admittedOf (runKey quota ts l).1, u ∈ ts := by
  induction ts generalizing l with
  | nil =>
    intro u hu
    simp [runKey, admittedOf] at hu
  | cons t ts ih =>
    intro u hu
    rw [runKey] at hu
    rw [admittedOf, List.filter_cons] at hu
    by_cases hb : (admitStep quota t l).1 = true
    · rw [if_pos (by simpa using hb), List.map_cons] at hu
      rcases List.mem_cons.mp hu with h | h
      · exact List.mem_cons.mpr (Or.inl h)
      · exact List.mem_cons.mpr (Or.inr (ih _ u h))
    · rw [if_neg (by simpa using hb)] at hu
      exact List.mem_cons.mpr (Or.inr (ih _ u hu))

/-- Core sliding-window window bound, in invariant form: running a sorted
batch of call times against a deque whose pending records all precede them
admits, inside any window `[a, a + 60]`, at most
`max quota (number of deque records ≥ a)` calls in total with those
records. -/
theorem runKey_window_bound (quota : Nat) (ts l : List ℤ) (a : ℤ)
    (h : (l ++ ts).Sorted (· ≤ ·)) :
    (l.filter (fun x => decide (a ≤ x))).length +
      ((admittedOf (runKey quota ts l).1).filter
        (fun u => decide (a ≤ u) && decide (u ≤ a + 60))).length ≤
      max quota (l.filter (fun x => decide (a ≤ x))).length := by
  induction ts generalizing l with
  | nil =>
    simp [runKey, admittedOf]
  | cons t ts ih =>
    have hparts := List.pairwise_append.mp h
    have hl : l.Sorted (· ≤ ·) := hparts.1
    have hts : (t :: ts).Sorted (· ≤ ·) := hparts.2.1
    have hlt : ∀ x ∈ l, x ≤ t :=
      fun x hx => hparts.2.2 x hx t (List.mem_cons_self t ts)
    have ht_ts : ∀ y ∈ ts, t ≤ y := (List.pairwise_cons.mp hts).1
    rw [runKey]
    by_cases hwin : t ≤ a + 60
    case neg =>
      -- Every time processed from here on lies beyond the window, so no
      -- admitted call can land in it.
      have hnone : ((admittedOf ((t, (admitStep quota t l).1) :: (runKey quota ts (admitStep quota t l).2).1)).filter
          (fun u => decide (a ≤ u) && decide (u ≤ a + 60))).length = 0 := by
        rw [List.length_eq_zero, List.filter_eq_nil_iff]
        intro u hu
        have hu_mem : u = t ∨ u ∈ ts := by
          rw [admittedOf, List.filter_cons] at hu
          by_cases hb : (admitStep quota t l).1 = true
          · rw [if_pos (by simpa using hb), List.map_cons] at hu
            rcases List.mem_cons.mp hu with h' | h'
            · exact Or.inl h'
            · exact Or.inr (admittedOf_runKey_subset quota ts _ u h')
          · rw [if_neg (by simpa using hb)] at hu
            exact Or.inr (admittedOf_runKey_subset quota ts _ u hu)
        have : a + 60 < u := by
          rcases hu_mem with rfl | h'
          · omega
          · have := ht_ts u h'
            omega
        simp only [Bool.and_eq_true, decide_eq_true_eq, not_and]
        intro _
        omega
      rw [hnone]
      simp only [add_zero]
      exact le_max_right _ _
    case pos =>
      -- The window start of this step precedes `a`, so trimming leaves the
      -- records at or after `a` untouched.
      have htrim_filter : ((trimOld (t - 60) l).filter (fun x => decide (a ≤ x))) =
          l.filter (fun x => decide (a ≤ x)) := by
        rw [trimOld_eq_filter _ _ hl, List.filter_filter]
        apply List.filter_congr
        intro x _
        by_cases hax : a ≤ x
        · have h60 : t - 60 ≤ x := by omega
          simp [hax, h60]
        · simp [hax]
      rw [admitStep] at *
      by_cases hb : quota ≤ (trimOld (t - 60) l).length
      · -- rejected step
        rw [if_pos hb]
        dsimp only
        have hsorted' : (trimOld (t - 60) l ++ ts).Sorted (· ≤ ·) := by
          have := admitStep_sorted quota t l ts h
          rw [admitStep, if_pos hb] at this
          exact this
        have := ih (trimOld (t - 60) l) hsorted'
        rw [htrim_filter] at this
        have hlog : admittedOf ((t, false) :: (runKey quota ts (trimOld (t - 60) l)).1) =
            admittedOf (runKey quota ts (trimOld (t - 60) l)).1 := by
          rw [admittedOf, List.filter_cons]
          simp [admittedOf]
        rw [hlog]
        exact this
      · -- admitted step
        rw [if_neg hb]
        dsimp only
        have hsorted' : ((trimOld (t - 60) l ++ [t]) ++ ts).Sorted (· ≤ ·) := by
          have := admitStep_sorted quota t l ts h
          rw [admitStep, if_neg hb] at this
          exact this
        have hih := ih (trimOld (t - 60) l ++ [t]) hsorted'
        have hlog : admittedOf ((t, true) :: (runKey quota ts (trimOld (t - 60) l ++ [t])).1) =
            t :: admittedOf (runKey quota ts (trimOld (t - 60) l ++ [t])).1 := by
          rw [admittedOf, List.filter_cons]
          simp [admittedOf]
        rw [hlog]
        have hfilter_new : ((trimOld (t - 60) l ++ [t]).filter (fun x => decide (a ≤ x))).length =
            (l.filter (fun x => decide (a ≤ x))).length +
              (if a ≤ t then 1 else 0) := by
          rw [List.filter_append, List.length_append, htrim_filter]
          by_cases hat : a ≤ t
          · simp [hat]
          · simp [hat]
        have hcount : (l.filter (fun x => decide (a ≤ x))).length <
            quota := by
          calc (l.filter (fun x => decide (a ≤ x))).length
              = ((trimOld (t - 60) l).filter (fun x => decide (a ≤ x))).length := by
                rw [htrim_filter]
            _ ≤ (trimOld (t - 60) l).length := List.length_filter_le _ _
            _ < quota := by omega
        rw [List.filter_cons] at *
        by_cases hat : a ≤ t
        · have hpred : (decide (a ≤ t) && decide (t ≤ a + 60)) = true := by
            simp [hat, hwin]
          rw [if_pos hpred, List.length_cons]
          rw [hfilter_new, if_pos hat] at hih
          omega
        · have hpred : (decide (a ≤ t) && decide (t ≤ a + 60)) = false := by
            simp [hat]
          rw [if_neg (by simp [hpred])]
          rw [hfilter_new, if_neg hat] at hih
          omega

/-- Sliding-window guarantee for a run from an empty deque: no window
`[a, a + 60]` ever contains more than `quota` admitted calls. -/
theorem runKey_window_quota (quota : Nat) (ts : List ℤ) (a : ℤ)
    (h : ts.Sorted (· ≤ ·)) :
    ((admittedOf (runKey quota ts []).1).filter
      (fun u => decide (a ≤ u) && decide (u ≤ a + 60))).length ≤ quota := by
  have := runKey_window_bound quota ts [] a (by simpa using h)
  simpa using this

/-- A sorted batch of at most `quota` calls that all fit in one shared
window is admitted in full, and no trimming occurs: the deque ends as the
old deque with all call times appended. -/
theorem runKey_admits_all (quota : Nat) (ts l : List ℤ)
    (hsort : (l ++ ts).Sorted (· ≤ ·))
    (hfresh : ∀ x ∈ l, ∀ t ∈ ts, t - 60 ≤ x)
    (hwin : ∀ s ∈ ts, ∀ t ∈ ts, t - 60 ≤ s)
    (hlen : l.length + ts.length ≤ quota) :
    ((runKey quota ts l).1.all (fun e => e.2)) = true ∧
      (runKey quota ts l).2 = l ++ ts := by
  induction ts generalizing l with
  | nil => simp [runKey]
  | cons t ts ih =>
    have htriml : trimOld (t - 60) l = l :=
      trimOld_eq_self _ l (fun x hx => hfresh x hx t (List.mem_cons_self t ts))
    have hstep : admitStep quota t l = (true, l ++ [t]) := by
      rw [admitStep, htriml, if_neg (by simp at hlen ⊢; omega)]
    have hsort' : ((l ++ [t]) ++ ts).Sorted (· ≤ ·) := by
      rw [List.append_assoc, List.singleton_append]
      exact hsort
    have hfresh' : ∀ x ∈ l ++ [t], ∀ u ∈ ts, u - 60 ≤ x := by
      intro x hx u hu
      rcases List.mem_append.mp hx with h' | h'
      · exact hfresh x h' u (List.mem_cons.mpr (Or.inr hu))
      · rcases List.mem_singleton.mp h' with rfl
        exact hwin x (List.mem_cons_self x ts) u (List.mem_cons.mpr (Or.inr hu))
    have hwin' : ∀ s ∈ ts, ∀ u ∈ ts, u - 60 ≤ s := by
      intro s hs u hu
      exact hwin s (List.mem_cons.mpr (Or.inr hs)) u (List.mem_cons.mpr (Or.inr hu))
    have hlen' : (l ++ [t]).length + ts.length ≤ quota := by
      rw [List.length_append, List.length_singleton]
      simp at hlen
      omega
    have hrec := ih (l ++ [t]) hsort' hfresh' hwin' hlen'
    rw [runKey, hstep]
    constructor
    · dsimp only
      rw [List.all_cons]
      simp only [Bool.and_eq_true]
      exact ⟨by simp, hrec.1⟩
    · dsimp only
      rw [hrec.2, List.append_assoc, List.singleton_append]

/-- A run of calls splits across a split of the call times. -/
theorem runKey_append (quota : Nat) (ts1 ts2 l : List ℤ) :
    runKey quota (ts1 ++ ts2) l =
      ((runKey quota ts1 l).1 ++ (runKey quota ts2 (runKey quota ts1 l).2).1,
        (runKey quota ts2 (runKey quota ts1 l).2).2) := by
  induction ts1 generalizing l with
  | nil => simp [runKey]
  | cons t ts1 ih =>
    rw [List.cons_append, runKey, runKey, ih]
    dsimp only
    rw [List.cons_append]

/-! Relating the multi-key storage to a single key's run. -/

/-- The `rate_limit` wrapper touches only its own key. -/
theorem rate_limit_frame (q : Nat) (k k' : String) (t : ℤ) (st : RateLimitStorage)
    (h : k' ≠ k) : (rate_limit q k t st).2 k' = st k' := by
  rw [rate_limit]
  exact Function.update_noteq h _ st

/-- The `rate_limit` wrapper writes the stepped deque at its own key. -/
theorem rate_limit_self (q : Nat) (k : String) (t : ℤ) (st : RateLimitStorage) :
    (rate_limit q k t st).2 k = (admitStep q t (st k)).2 := by
  rw [rate_limit]
  exact Function.update_same _ _ st

/-- Unfolding of the per-key call times over a trace step. -/
theorem keyTimes_cons (k : String) (c : String × ℤ) (rest : List (String × ℤ)) :
    keyTimes k (c :: rest) =
      if c.1 = k then c.2 :: keyTimes k rest else keyTimes k rest := by
  rw [keyTimes, List.filter_cons]
  by_cases hk : c.1 = k
  · rw [if_pos (by simpa using hk), if_pos hk, List.map_cons, keyTimes]
  · rw [if_neg (by simpa using hk), if_neg hk, keyTimes]

/-- A whole-process trace acts on each key exactly as the subtrace touching
that key acts on that key's deque. -/
theorem runCalls_key (quotaOf : String → Nat) (trace : List (String × ℤ))
    (st : RateLimitStorage) (k : String) :
    runCalls quotaOf trace st k = (runKey (quotaOf k) (keyTimes k trace) (st k)).2 := by
  induction trace generalizing st with
  | nil => simp [runCalls, keyTimes, runKey]
  | cons c rest ih =>
    rw [runCalls, ih, keyTimes_cons]
    by_cases hk : c.1 = k
    · rw [if_pos hk]
      subst hk
      rw [rate_limit_self, runKey]
    · rw [if_neg hk, rate_limit_frame _ _ _ _ _ (fun hkc => hk hkc.symm)]

/-- Selecting one key's call times out of a chronologically ordered trace
yields a chronologically ordered list. -/
theorem keyTimes_sorted (k : String) (trace : List (String × ℤ))
    (h : (trace.map (fun c => c.2)).Sorted (· ≤ ·)) :
    (keyTimes k trace).Sorted (· ≤ ·) := by
  rw [keyTimes]
  have hsub : (trace.filter (fun c => c.1 == k)).map (fun c => c.2) <+
      trace.map (fun c => c.2) :=
    (List.filter_sublist trace).map _
  exact h.sublist hsub

/-! Claim theorems. -/

/-- C1: if an operation's key already holds the configured quota `q` of
timestamps within the trailing 60 seconds of the call time `t` (and the
arguments pass the size guard), the guarded call fails with the
`RateLimitExceeded` kind whose message carries the configured quota, the
wrapped backend operation is not invoked, and no record with timestamp `t`
is appended: the key's deque is left in exactly its trimmed form, every
record of which was already present. -/
theorem claim_C1_reject_at_quota {α : Type} (mb q : Nat) (fn : String)
    (args : List PyVal) (kwargs : List (String × PyVal)) (t : ℤ)
    (backend : BackendOutcome α) (st : RateLimitStorage)
    (hsize : request_size_limit_rejects mb args kwargs = false)
    (hsorted : (st fn).Sorted (· ≤ ·))
    (hq : q ≤ ((st fn).filter (fun x => decide (t - 60 ≤ x))).length) :
    (guarded_call mb q fn args kwargs t backend st).result =
        .error (.rateLimitExceeded q) ∧
      GuardError.message (.rateLimitExceeded q) =
        "Rate limit exceeded. Maximum " ++ toString q ++
          " requests per minute allowed." ∧
      (guarded_call mb q fn args kwargs t backend st).backendCalls = 0 ∧
      (guarded_call mb q fn args kwargs t backend st).storage fn =
        trimOld (t - 60) (st fn) ∧
      ∀ x ∈ (guarded_call mb q fn args kwargs t backend st).storage fn, x ∈ st fn := by
  have htrim : trimOld (t - 60) (st fn) = (st fn).filter (fun x => decide (t - 60 ≤ x)) :=
    trimOld_eq_filter _ _ hsorted
  have hlen : q ≤ (trimOld (t - 60) (st fn)).length := by
    rw [htrim]
    exact hq
  have hadm : (admitStep q t (st fn)).1 = false := by
    rw [admitStep_fst]
    simp only [decide_eq_false_iff_not]
    omega
  have hsnd : (admitStep q t (st fn)).2 = trimOld (t - 60) (st fn) := by
    rw [admitStep_structure, hadm]
    simp
  have hr1 : (rate_limit q fn t st).1 = false := hadm
  have hr2 : (rate_limit q fn t st).2 fn = trimOld (t - 60) (st fn) := by
    rw [rate_limit_self, hsnd]
  rw [guarded_call, hsize]
  rw [if_neg (by simp)]
  simp only [hr1, Bool.false_eq_true, if_false]
  refine ⟨trivial, rfl, trivial, hr2, ?_⟩
  intro x hx
  rw [hr2] at hx
  exact trimOld_subset _ _ x hx

theorem claim_C1_reject_at_quota_witness :
    (guarded_call 5 1 "get_work_item" [PyVal.obj "AzureDevOpsWorkItems"] [] 70
        (BackendOutcome.ok (0 : Nat)) (fun _ => [15])).result =
        .error (.rateLimitExceeded 1) ∧
      (guarded_call 5 1 "get_work_item" [PyVal.obj "AzureDevOpsWorkItems"] [] 70
        (BackendOutcome.ok (0 : Nat)) (fun _ => [15])).backendCalls = 0 ∧
      (guarded_call 5 1 "get_work_item" [PyVal.obj "AzureDevOpsWorkItems"] [] 70
        (BackendOutcome.ok (0 : Nat)) (fun _ => [15])).storage "get_work_item" =
        trimOld 10 [15] := by
  have h := claim_C1_reject_at_quota 5 1 "get_work_item"
    [PyVal.obj "AzureDevOpsWorkItems"] [] 70 (BackendOutcome.ok (0 : Nat))
    (fun _ => [15]) (by decide) (by decide) (by decide)
  exact ⟨h.1, h.2.2.1, h.2.2.2.1⟩

/-- C9: distinct operation keys never share quota. An admission for key `A`
leaves key `B`'s deque untouched, and neither `B`'s admission outcome nor
`B`'s resulting deque depend on whether `A`'s admission happened first. -/
theorem claim_C9_distinct_keys_independent (qA qB : Nat) (A B : String)
    (tA tB : ℤ) (st : RateLimitStorage) (hne : A ≠ B) :
    (rate_limit qA A tA st).2 B = st B ∧
      (rate_limit qB B tB ((rate_limit qA A tA st).2)).1 =
        (rate_limit qB B tB st).1 ∧
      (rate_limit qB B tB ((rate_limit qA A tA st).2)).2 B =
        (rate_limit qB B tB st).2 B := by
  have hframe : (rate_limit qA A tA st).2 B = st B :=
    rate_limit_frame qA A B tA st (fun h => hne h.symm)
  refine ⟨hframe, ?_, ?_⟩
  · show (admitStep qB tB ((rate_limit qA A tA st).2 B)).1 =
        (admitStep qB tB (st B)).1
    rw [hframe]
  · rw [rate_limit_self, rate_limit_self, hframe]

theorem claim_C9_distinct_keys_independent_witness :
    (rate_limit 1 "create_work_item" 10 (fun _ => [])).2 "get_work_item" = [] ∧
      (rate_limit 2 "get_work_item" 20
          ((rate_limit 1 "create_work_item" 10 (fun _ => [])).2)).1 =
        (rate_limit 2 "get_work_item" 20 (fun _ => [])).1 := by
  have h := claim_C9_distinct_keys_independent 1 2 "create_work_item"
    "get_work_item" 10 20 (fun _ => []) (by decide)
  exact ⟨h.1, h.2.1⟩

/-- C10: a rejected admission still mutates the key's deque: the trim step
runs before the quota check, so after a `RateLimitExceeded` rejection the
key's deque equals its trimmed form (a suffix of the old deque), no other
key changes, and only the append of the current time is skipped. -/
theorem claim_C10_reject_still_trims (q : Nat) (k : String) (t : ℤ)
    (st : RateLimitStorage) (hrej : (rate_limit q k t st).1 = false) :
    (rate_limit q k t st).2 k = trimOld (t - 60) (st k) ∧
      (rate_limit q k t st).2 = Function.update st k (trimOld (t - 60) (st k)) ∧
      trimOld (t - 60) (st k) <:+ st k := by
  have hadm : (admitStep q t (st k)).1 = false := hrej
  have hsnd : (admitStep q t (st k)).2 = trimOld (t - 60) (st k) := by
    rw [admitStep_structure, hadm]
    simp
  refine ⟨?_, ?_, trimOld_suffix _ _⟩
  · rw [rate_limit_self, hsnd]
  · rw [rate_limit]
    dsimp only
    rw [hsnd]

theorem claim_C10_reject_still_trims_witness :
    (rate_limit 1 "get_work_item" 70 (fun _ => [0, 15])).1 = false ∧
      (rate_limit 1 "get_work_item" 70 (fun _ => [0, 15])).2 "get_work_item" =
        [15] := by
  refine ⟨by decide, ?_⟩
  have h := claim_C10_reject_still_trims 1 "get_work_item" 70
    (fun _ => [0, 15]) (by decide)
  rw [h.1]
  decide

/-! Facts about the size guard. -/

/-- An oversized string among the positional arguments after `self`, or
among the keyword values, makes the size guard reject. -/
theorem request_size_limit_rejects_of_oversized (mb : Nat) (args : List PyVal)
    (kwargs : List (String × PyVal))
    (h : (∃ v ∈ args.drop 1, ∃ s, v = PyVal.str s ∧
            mb * 1024 * 1024 < s.utf8ByteSize) ∨
      (∃ kv ∈ kwargs, ∃ s, kv.2 = PyVal.str s ∧
            mb * 1024 * 1024 < s.utf8ByteSize)) :
    request_size_limit_rejects mb args kwargs = true := by
  simp only [request_size_limit_rejects, Bool.or_eq_true, List.any_eq_true]
  rcases h with ⟨v, hv, s, rfl, hbig⟩ | ⟨kv, hkv, s, hs, hbig⟩
  · exact Or.inl ⟨_, hv, by simp [oversized, hbig]⟩
  · refine Or.inr ⟨kv, hkv, ?_⟩
    rw [hs]
    simp [oversized, hbig]

/-- The size test looks only at whether a value is a string and at that
string; the payload of a non-string value is never inspected. -/
theorem oversized_congr (m : Nat) (a b : PyVal) (h : a.strVal = b.strVal) :
    oversized m a = oversized m b := by
  cases a <;> cases b <;> simp_all [PyVal.strVal, oversized]

theorem any_oversized_congr (m : Nat) (l l' : List PyVal)
    (h : List.Forall₂ (fun a b => a.strVal = b.strVal) l l') :
    l.any (oversized m) = l'.any (oversized m) := by
  induction h with
  | nil => rfl
  | cons h _ ih => rw [List.any_cons, List.any_cons, oversized_congr m _ _ h, ih]

theorem any_oversized_kwargs_congr (m : Nat) (l l' : List (String × PyVal))
    (h : List.Forall₂ (fun a b => a.2.strVal = b.2.strVal) l l') :
    l.any (fun kv => oversized m kv.2) = l'.any (fun kv => oversized m kv.2) := by
  induction h with
  | nil => rfl
  | cons h _ ih => rw [List.any_cons, List.any_cons, oversized_congr m _ _ h, ih]

/-- One oversized value among the positional arguments after `self` makes
the guard reject. -/
theorem request_size_limit_rejects_of_mem (mb : Nat) (args : List PyVal)
    (kwargs : List (String × PyVal)) (b : PyVal) (hb : b ∈ args.drop 1)
    (hov : oversized (mb * 1024 * 1024) b = true) :
    request_size_limit_rejects mb args kwargs = true := by
  simp only [request_size_limit_rejects, Bool.or_eq_true, List.any_eq_true]
  exact Or.inl ⟨b, hb, hov⟩

/-- The size guard's verdict depends only on which arguments are strings
and on those strings' contents. -/
theorem request_size_limit_rejects_congr (mb : Nat) (args args' : List PyVal)
    (kwargs kwargs' : List (String × PyVal))
    (ha : List.Forall₂ (fun a b => a.strVal = b.strVal) args args')
    (hk : List.Forall₂ (fun a b => a.2.strVal = b.2.strVal) kwargs kwargs') :
    request_size_limit_rejects mb args kwargs =
      request_size_limit_rejects mb args' kwargs' := by
  simp only [request_size_limit_rejects]
  rw [any_oversized_congr _ _ _ (List.forall₂_drop 1 ha),
    any_oversized_kwargs_congr _ _ _ hk]

/-- C5: any positional argument after the first, or any keyword argument,
that is a string whose UTF-8 byte length strictly exceeds
`max_size_mb * 1024 * 1024` makes the guarded call fail with the
`PayloadTooLarge` kind whose message carries the megabyte budget, with zero
backend invocations and the rate-limit storage completely untouched;
moreover the guard's verdict never depends on non-string arguments, and
once an offending argument is reached the outcome is already decided:
whatever follows it in the argument list never changes the call's
outcome. -/
theorem claim_C5_size_guard {α : Type} (mb q : Nat) (fn : String)
    (args : List PyVal) (kwargs : List (String × PyVal)) (t : ℤ)
    (backend : BackendOutcome α) (st : RateLimitStorage)
    (h : (∃ v ∈ args.drop 1, ∃ s, v = PyVal.str s ∧
            mb * 1024 * 1024 < s.utf8ByteSize) ∨
      (∃ kv ∈ kwargs, ∃ s, kv.2 = PyVal.str s ∧
            mb * 1024 * 1024 < s.utf8ByteSize)) :
    (guarded_call mb q fn args kwargs t backend st).result =
        .error (.payloadTooLarge mb) ∧
      GuardError.message (.payloadTooLarge mb) =
        "Request data too large. Maximum " ++ toString mb ++ "MB allowed." ∧
      (guarded_call mb q fn args kwargs t backend st).backendCalls = 0 ∧
      (guarded_call mb q fn args kwargs t backend st).storage = st ∧
      (∀ (args' : List PyVal) (kwargs' : List (String × PyVal)),
        List.Forall₂ (fun a b => PyVal.strVal a = PyVal.strVal b) args args' →
        List.Forall₂ (fun a b => PyVal.strVal a.2 = PyVal.strVal b.2) kwargs kwargs' →
        request_size_limit_rejects mb args' kwargs' = true) ∧
      ∀ (pre post post' : List PyVal) (b : PyVal), pre ≠ [] →
        oversized (mb * 1024 * 1024) b = true →
        guarded_call mb q fn (pre ++ b :: post) kwargs t backend st =
          guarded_call mb q fn (pre ++ b :: post') kwargs t backend st := by
  have hrej : request_size_limit_rejects mb args kwargs = true :=
    request_size_limit_rejects_of_oversized mb args kwargs h
  rw [guarded_call, hrej, if_pos rfl]
  refine ⟨rfl, rfl, rfl, rfl, ?_, ?_⟩
  · intro args' kwargs' ha hk
    rw [← request_size_limit_rejects_congr mb args args' kwargs kwargs' ha hk]
    exact hrej
  · intro pre post post' b hpre hov
    have hmem : ∀ (pp : List PyVal), b ∈ (pre ++ b :: pp).drop 1 := by
      intro pp
      cases pre with
      | nil => exact absurd rfl hpre
      | cons p0 pre' =>
        rw [List.cons_append, List.drop_one, List.tail_cons]
        exact List.mem_append.mpr (Or.inr (List.mem_cons_self b pp))
    have h1 := request_size_limit_rejects_of_mem mb (pre ++ b :: post) kwargs b
      (hmem post) hov
    have h2 := request_size_limit_rejects_of_mem mb (pre ++ b :: post') kwargs b
      (hmem post') hov
    rw [guarded_call, h1, if_pos rfl, guarded_call, h2, if_pos rfl]

theorem claim_C5_size_guard_witness :
    (guarded_call 0 3 "create_work_item"
        [PyVal.obj "AzureDevOpsWorkItems", PyVal.str "x"] [] 5
        (BackendOutcome.ok (0 : Nat)) emptyStorage).result =
        .error (.payloadTooLarge 0) ∧
      (guarded_call 0 3 "create_work_item"
        [PyVal.obj "AzureDevOpsWorkItems", PyVal.str "x"] [] 5
        (BackendOutcome.ok (0 : Nat)) emptyStorage).backendCalls = 0 ∧
      (guarded_call 0 3 "create_work_item"
        [PyVal.obj "AzureDevOpsWorkItems", PyVal.str "x"] [] 5
        (BackendOutcome.ok (0 : Nat)) emptyStorage).storage = emptyStorage := by
  have h := claim_C5_size_guard 0 3 "create_work_item"
    [PyVal.obj "AzureDevOpsWorkItems", PyVal.str "x"] [] 5
    (BackendOutcome.ok (0 : Nat)) emptyStorage
    (Or.inl ⟨PyVal.str "x", by decide, "x", rfl, by decide⟩)
  exact ⟨h.1, h.2.2.1, h.2.2.2.1⟩

/-- C2: when a call both carries an oversized string argument and targets a
key already at quota within the trailing 60 seconds, the observed failure
is `PayloadTooLarge`, never `RateLimitExceeded`: the backend is not
invoked and no timestamp is appended to (or trimmed from) the key's
deque — the oversized call consumes no rate-limit budget. -/
theorem claim_C2_size_before_rate {α : Type} (mb q : Nat) (fn : String)
    (args : List PyVal) (kwargs : List (String × PyVal)) (t : ℤ)
    (backend : BackendOutcome α) (st : RateLimitStorage)
    (hbig : (∃ v ∈ args.drop 1, ∃ s, v = PyVal.str s ∧
            mb * 1024 * 1024 < s.utf8ByteSize) ∨
      (∃ kv ∈ kwargs, ∃ s, kv.2 = PyVal.str s ∧
            mb * 1024 * 1024 < s.utf8ByteSize))
    (hsorted : (st fn).Sorted (· ≤ ·))
    (hq : q ≤ ((st fn).filter (fun x => decide (t - 60 ≤ x))).length) :
    (guarded_call mb q fn args kwargs t backend st).result =
        .error (.payloadTooLarge mb) ∧
      (∀ q', (guarded_call mb q fn args kwargs t backend st).result ≠
        .error (.rateLimitExceeded q')) ∧
      (guarded_call mb q fn args kwargs t backend st).backendCalls = 0 ∧
      (guarded_call mb q fn args kwargs t backend st).storage fn = st fn := by
  have hrej : request_size_limit_rejects mb args kwargs = true :=
    request_size_limit_rejects_of_oversized mb args kwargs hbig
  rw [guarded_call, hrej, if_pos rfl]
  exact ⟨rfl, fun q' hcontra => by simp at hcontra, rfl, rfl⟩

theorem claim_C2_size_before_rate_witness :
    (guarded_call 0 1 "create_work_item"
        [PyVal.obj "AzureDevOpsWorkItems", PyVal.str "x"] [] 70
        (BackendOutcome.ok (0 : Nat)) (fun _ => [15])).result =
        .error (.payloadTooLarge 0) ∧
      (guarded_call 0 1 "create_work_item"
        [PyVal.obj "AzureDevOpsWorkItems", PyVal.str "x"] [] 70
        (BackendOutcome.ok (0 : Nat)) (fun _ => [15])).storage "create_work_item" =
        [15] := by
  have h := claim_C2_size_before_rate 0 1 "create_work_item"
    [PyVal.obj "AzureDevOpsWorkItems", PyVal.str "x"] [] 70
    (BackendOutcome.ok (0 : Nat)) (fun _ => [15])
    (Or.inl ⟨PyVal.str "x", by decide, "x", rfl, by decide⟩)
    (by decide) (by decide)
  exact ⟨h.1, h.2.2.2⟩

/-- Unfolding of a guarded call that passes the size guard and is admitted
by the rate limiter. -/
theorem guarded_call_admitted {α : Type} (mb q : Nat) (fn : String)
    (args : List PyVal) (kwargs : List (String × PyVal)) (t : ℤ)
    (backend : BackendOutcome α) (st : RateLimitStorage)
    (hsize : request_size_limit_rejects mb args kwargs = false)
    (hadm2 : (rate_limit q fn t st).1 = true) :
    guarded_call mb q fn args kwargs t backend st =
      match azure_devops_error_handler fn args backend with
      | .ok v => ⟨.ok v, (rate_limit q fn t st).2, 1⟩
      | .error m => ⟨.error (.normalized m), (rate_limit q fn t st).2, 1⟩ := by
  rw [guarded_call, hsize, if_neg (by simp)]
  exact if_pos hadm2

/-- Unfolding of a guarded call that passes the size guard and is rejected
by the rate limiter. -/
theorem guarded_call_rate_rejected {α : Type} (mb q : Nat) (fn : String)
    (args : List PyVal) (kwargs : List (String × PyVal)) (t : ℤ)
    (backend : BackendOutcome α) (st : RateLimitStorage)
    (hsize : request_size_limit_rejects mb args kwargs = false)
    (hrej : (rate_limit q fn t st).1 = false) :
    guarded_call mb q fn args kwargs t backend st =
      ⟨.error (.rateLimitExceeded q), (rate_limit q fn t st).2, 0⟩ := by
  rw [guarded_call, hsize, if_neg (by simp)]
  exact if_neg (by simp [hrej])

/-- C6: the error normalizer passes a successful backend result through
unchanged; it maps a backend-reported `AzureDevOpsServiceError` to the
`"Failed to <operation><context>: <original>"` message and any other
failure to the `"Unexpected error in <operation><context>: <original>"`
message, both built from the operation name with underscores replaced by
spaces; and a guarded invocation that reaches the backend invokes it
exactly once, whatever the outcome. -/
theorem claim_C6_error_normalizer {α : Type} (mb q : Nat) (fn : String)
    (args : List PyVal) (kwargs : List (String × PyVal)) (t : ℤ)
    (backend : BackendOutcome α) (st : RateLimitStorage) (v : α) (e1 e2 : String)
    (hsize : request_size_limit_rejects mb args kwargs = false)
    (hadm2 : (rate_limit q fn t st).1 = true) :
    azure_devops_error_handler fn args (BackendOutcome.ok v) = .ok v ∧
      azure_devops_error_handler (α := α) fn args (BackendOutcome.azureError e1) =
        .error ("Failed to " ++ pyReplace fn "_" " " ++ contextOf args ++ ": " ++ e1) ∧
      azure_devops_error_handler (α := α) fn args (BackendOutcome.otherError e2) =
        .error ("Unexpected error in " ++ pyReplace fn "_" " " ++ contextOf args ++
          ": " ++ e2) ∧
      (guarded_call mb q fn args kwargs t backend st).backendCalls = 1 := by
  refine ⟨rfl, rfl, rfl, ?_⟩
  rw [guarded_call_admitted mb q fn args kwargs t backend st hsize hadm2]
  cases azure_devops_error_handler fn args backend <;> rfl

theorem claim_C6_error_normalizer_witness :
    azure_devops_error_handler "create_work_item" [PyVal.obj "AzureDevOpsWorkItems"]
        (BackendOutcome.azureError (α := Nat) "boom") =
      .error "Failed to create work item in workitems: boom" ∧
      azure_devops_error_handler "create_work_item" [PyVal.obj "AzureDevOpsWorkItems"]
        (BackendOutcome.otherError (α := Nat) "crash") =
      .error "Unexpected error in create work item in workitems: crash" ∧
      (guarded_call 5 20 "create_work_item" [PyVal.obj "AzureDevOpsWorkItems"] [] 0
        (BackendOutcome.ok (7 : Nat)) emptyStorage).backendCalls = 1 := by
  have h := claim_C6_error_normalizer 5 20 "create_work_item"
    [PyVal.obj "AzureDevOpsWorkItems"] [] 0 (BackendOutcome.ok (7 : Nat))
    emptyStorage 7 "boom" "crash" (by decide) (by decide)
  exact ⟨h.2.1.trans (by decide), h.2.2.1.trans (by decide), h.2.2.2⟩

/-- C7 counterexample: for the work-items grouping the code derives the
context label " in workitems" (no space), not the claimed " in work
items" — `.replace('AzureDevOps','').lower()` inserts no space between the
camel-case words. -/
theorem claim_C7_counterexample :
    contextOf [PyVal.obj "AzureDevOpsWorkItems"] ≠ " in work items" := by decide

/-- C7 (amended): the context label is formed by removing every occurrence
of `"AzureDevOps"` from the grouping class's name and lower-casing the
remainder (when the name starts with that prefix), which for
`AzureDevOpsWorkItems` yields `" in workitems"` — without a space, unlike
the code comment's "work items" — and an operation without such a grouping
gets the empty context. -/
theorem claim_C7_context_derivation (c : String) :
    contextOf [PyVal.obj c] =
      (if pyStartsWith c "AzureDevOps" then
        " in " ++ pyLower (pyReplace c "AzureDevOps" "") else "") ∧
      contextOf [PyVal.obj "AzureDevOpsWorkItems"] = " in workitems" ∧
      contextOf [] = "" :=
  ⟨rfl, by decide, rfl⟩

/-- Lists starting with different characters are never prefix-related. -/
theorem not_prefix_of_head_ne (c c' : Char) (p m : List Char) (h : c ≠ c') :
    ¬ ((c :: p) <+: (c' :: m)) := by
  intro hp
  rcases hp with ⟨tail, htail⟩
  rw [List.cons_append] at htail
  injection htail with h1 _
  exact h h1

/-- C8: rate-limit and size rejections are not routed through the error
normalizer. A size rejection surfaces as the `PayloadTooLarge` kind and a
rate rejection as the `RateLimitExceeded` kind, each with its own raw
message (`"Request data too large. Maximum <mb>MB allowed."`,
`"Rate limit exceeded. Maximum <quota> requests per minute allowed."`),
and neither message is prefixed with `"Failed to"` or
`"Unexpected error in"`. -/
theorem claim_C8_guard_failures_not_normalized {α : Type} (mb q mb2 q2 : Nat)
    (fn fn2 : String) (args1 args2 : List PyVal)
    (kwargs1 kwargs2 : List (String × PyVal)) (t1 t2 : ℤ)
    (b1 b2 : BackendOutcome α) (st1 st2 : RateLimitStorage)
    (hsize1 : request_size_limit_rejects mb args1 kwargs1 = true)
    (hsize2 : request_size_limit_rejects mb2 args2 kwargs2 = false)
    (hrate2 : (rate_limit q2 fn2 t2 st2).1 = false) :
    (guarded_call mb q fn args1 kwargs1 t1 b1 st1).result =
        .error (.payloadTooLarge mb) ∧
      (guarded_call mb2 q2 fn2 args2 kwargs2 t2 b2 st2).result =
        .error (.rateLimitExceeded q2) ∧
      GuardError.message (.payloadTooLarge mb) =
        "Request data too large. Maximum " ++ toString mb ++ "MB allowed." ∧
      GuardError.message (.rateLimitExceeded q2) =
        "Rate limit exceeded. Maximum " ++ toString q2 ++
          " requests per minute allowed." ∧
      ¬ ("Failed to".data <+: (GuardError.message (.payloadTooLarge mb)).data) ∧
      ¬ ("Unexpected error in".data <+:
          (GuardError.message (.payloadTooLarge mb)).data) ∧
      ¬ ("Failed to".data <+: (GuardError.message (.rateLimitExceeded q2)).data) ∧
      ¬ ("Unexpected error in".data <+:
          (GuardError.message (.rateLimitExceeded q2)).data) := by
  have hp : ∃ rest, (GuardError.message (.payloadTooLarge mb)).data =
      'R' :: rest := ⟨_, rfl⟩
  have hr : ∃ rest, (GuardError.message (.rateLimitExceeded q2)).data =
      'R' :: rest := ⟨_, rfl⟩
  obtain ⟨restp, hrestp⟩ := hp
  obtain ⟨restr, hrestr⟩ := hr
  refine ⟨?_, ?_, rfl, rfl, ?_, ?_, ?_, ?_⟩
  · rw [guarded_call, hsize1, if_pos rfl]
  · rw [guarded_call_rate_rejected mb2 q2 fn2 args2 kwargs2 t2 b2 st2 hsize2 hrate2]
  · rw [hrestp]
    exact not_prefix_of_head_ne 'F' 'R' _ _ (by decide)
  · rw [hrestp]
    exact not_prefix_of_head_ne 'U' 'R' _ _ (by decide)
  · rw [hrestr]
    exact not_prefix_of_head_ne 'F' 'R' _ _ (by decide)
  · rw [hrestr]
    exact not_prefix_of_head_ne 'U' 'R' _ _ (by decide)

theorem claim_C8_guard_failures_not_normalized_witness :
    (guarded_call 0 3 "create_work_item"
        [PyVal.obj "AzureDevOpsWorkItems", PyVal.str "x"] [] 5
        (BackendOutcome.ok (0 : Nat)) emptyStorage).result =
        .error (.payloadTooLarge 0) ∧
      (guarded_call 5 1 "get_work_item" [PyVal.obj "AzureDevOpsWorkItems"] [] 70
        (BackendOutcome.ok (0 : Nat)) (fun _ => [15])).result =
        .error (.rateLimitExceeded 1) ∧
      ¬ ("Failed to".data <+: (GuardError.message (.rateLimitExceeded 1)).data) := by
  have h := claim_C8_guard_failures_not_normalized 0 3 5 1 "create_work_item"
    "get_work_item" [PyVal.obj "AzureDevOpsWorkItems", PyVal.str "x"]
    [PyVal.obj "AzureDevOpsWorkItems"] [] [] 5 70
    (BackendOutcome.ok (0 : Nat)) (BackendOutcome.ok (0 : Nat)) emptyStorage
    (fun _ => [15]) (by decide) (by decide) (by decide)
  exact ⟨h.1, h.2.1, h.2.2.2.2.2.2.1⟩

/-- C3: invariants of every admission on the rate-limit state. Starting
from the empty storage and running any chronologically ordered trace of
admissions, each key's deque stays time-ordered and never holds more than
its quota of records — so the count of records newer than `now - 60` never
exceeds the quota, for any instant; each single step only trims its key's
deque from the head, appending the call time at the tail exactly on
admission; and consequently, per key, no 60-second interval ever contains
more than that key's quota of admitted calls. -/
theorem claim_C3_state_invariants (quotaOf : String → Nat)
    (trace : List (String × ℤ))
    (hmono : (trace.map (fun c => c.2)).Sorted (· ≤ ·)) (k : String) (T a : ℤ) :
    (runCalls quotaOf trace emptyStorage k).Sorted (· ≤ ·) ∧
      ((runCalls quotaOf trace emptyStorage k).filter
        (fun x => decide (T - 60 ≤ x))).length ≤ quotaOf k ∧
      (∀ (q : Nat) (t : ℤ) (l : List ℤ),
        (admitStep q t l).2 =
          trimOld (t - 60) l ++ (if (admitStep q t l).1 then [t] else []) ∧
        trimOld (t - 60) l <:+ l) ∧
      ((admittedOf (runKey (quotaOf k) (keyTimes k trace) []).1).filter
        (fun u => decide (a ≤ u) && decide (u ≤ a + 60))).length ≤ quotaOf k := by
  have hkt : (keyTimes k trace).Sorted (· ≤ ·) := keyTimes_sorted k trace hmono
  have hproj : runCalls quotaOf trace emptyStorage k =
      (runKey (quotaOf k) (keyTimes k trace) []).2 :=
    runCalls_key quotaOf trace emptyStorage k
  refine ⟨?_, ?_, ?_, ?_⟩
  · rw [hproj]
    exact runKey_sorted _ _ [] (by simpa using hkt)
  · calc ((runCalls quotaOf trace emptyStorage k).filter
          (fun x => decide (T - 60 ≤ x))).length
        ≤ (runCalls quotaOf trace emptyStorage k).length :=
          List.length_filter_le _ _
      _ ≤ quotaOf k := by
          rw [hproj]
          exact runKey_length _ _ [] (by simp)
  · intro q t l
    exact ⟨admitStep_structure q t l, trimOld_suffix _ _⟩
  · exact runKey_window_quota _ _ a hkt

theorem claim_C3_state_invariants_witness :
    (runCalls (fun _ => 2) [("list_work_items", 0), ("get_work_item", 1),
        ("list_work_items", 2)] emptyStorage "list_work_items").Sorted (· ≤ ·) ∧
      ((runCalls (fun _ => 2) [("list_work_items", 0), ("get_work_item", 1),
        ("list_work_items", 2)] emptyStorage "list_work_items").filter
          (fun x => decide ((2 : ℤ) - 60 ≤ x))).length ≤ 2 ∧
      ((admittedOf (runKey 2 (keyTimes "list_work_items"
          [("list_work_items", 0), ("get_work_item", 1), ("list_work_items", 2)])
          []).1).filter
        (fun u => decide ((0 : ℤ) ≤ u) && decide (u ≤ (0 : ℤ) + 60))).length ≤ 2 := by
  have h := claim_C3_state_invariants (fun _ => 2)
    [("list_work_items", 0), ("get_work_item", 1), ("list_work_items", 2)]
    (by decide) "list_work_items" 2 0
  exact ⟨h.1, h.2.1, h.2.2.2⟩

/-- C4: trim correctness and strictness. On a time-ordered deque the trim
step removes exactly the records strictly older than 60 seconds before the
current call time — a record strictly older is gone and never counted, a
record exactly 60 seconds old is kept — and in the concrete scenario where
calls at times `0, 1, ..., quota - 1` fill the quota, a further call at
time 61 is admitted because the `t = 0` record has become stale (stated
for `1 ≤ quota ≤ 61`, where the fill phase itself trims nothing). -/
theorem claim_C4_trim_correctness (t : ℤ) (l : List ℤ) (q : Nat)
    (hsorted : l.Sorted (· ≤ ·)) (hq1 : 1 ≤ q) (hq61 : q ≤ 61) :
    trimOld (t - 60) l = l.filter (fun x => decide (t - 60 ≤ x)) ∧
      (∀ x ∈ l, x < t - 60 → x ∉ trimOld (t - 60) l) ∧
      (∀ x ∈ l, t - 60 ≤ x → x ∈ trimOld (t - 60) l) ∧
      ((runKey q ((List.range q).map (fun (i : ℕ) => (i : ℤ)) ++ [61]) []).1.all
        (fun e => e.2)) = true := by
  refine ⟨trimOld_eq_filter _ _ hsorted, ?_, ?_, ?_⟩
  · intro x hx hold hmem
    rw [trimOld_eq_filter _ _ hsorted, List.mem_filter] at hmem
    have := of_decide_eq_true hmem.2
    omega
  · intro x hx hin
    rw [trimOld_eq_filter _ _ hsorted, List.mem_filter]
    exact ⟨hx, decide_eq_true hin⟩
  · obtain ⟨q', rfl⟩ : ∃ q', q = q' + 1 := ⟨q - 1, by omega⟩
    set ts : List ℤ := (List.range (q' + 1)).map (fun (i : ℕ) => (i : ℤ)) with hts
    have hmem : ∀ x ∈ ts, 0 ≤ x ∧ x ≤ (q' : ℤ) := by
      intro x hx
      rw [hts, List.mem_map] at hx
      obtain ⟨i, hi, rfl⟩ := hx
      have hi' := List.mem_range.mp hi
      omega
    have hsort_ts : ts.Sorted (· ≤ ·) := by
      rw [hts]
      exact (List.pairwise_lt_range _).map _ (fun x y hxy => by omega)
    have hfill := runKey_admits_all (q' + 1) ts [] (by simpa using hsort_ts)
      (by intro x hx; cases hx)
      (by
        intro s hs u hu
        have h1 := hmem s hs
        have h2 := hmem u hu
        omega)
      (by simp [hts])
    have hstate : (runKey (q' + 1) ts []).2 = ts := by simpa using hfill.2
    have htail : ts = (0 : ℤ) :: (List.range q').map (fun (i : ℕ) => ((i + 1 : ℕ) : ℤ)) := by
      rw [hts, List.range_succ_eq_map, List.map_cons, List.map_map]
      rfl
    have htrim61 : trimOld (1 : ℤ) ts =
        (List.range q').map (fun (i : ℕ) => ((i + 1 : ℕ) : ℤ)) := by
      rw [htail, trimOld, if_pos (by norm_num)]
      apply trimOld_eq_self
      intro x hx
      rw [List.mem_map] at hx
      obtain ⟨i, _, rfl⟩ := hx
      omega
    have hstep61 : (admitStep (q' + 1) 61 ts).1 = true := by
      rw [admitStep_fst]
      simp only [decide_eq_true_eq]
      have h6160 : (61 : ℤ) - 60 = 1 := by norm_num
      rw [h6160, htrim61, List.length_map, List.length_range]
      omega
    rw [runKey_append]
    dsimp only
    rw [List.all_append]
    simp only [Bool.and_eq_true]
    refine ⟨hfill.1, ?_⟩
    rw [hstate, runKey, runKey]
    dsimp only
    rw [List.all_cons, hstep61]
    simp

theorem claim_C4_trim_correctness_witness :
    trimOld ((70 : ℤ) - 60) [5, 50] =
        List.filter (fun x => decide ((70 : ℤ) - 60 ≤ x)) [5, 50] ∧
      ((runKey 2 ((List.range 2).map (fun (i : ℕ) => (i : ℤ)) ++ [61]) []).1.all
        (fun e => e.2)) = true := by
  have h := claim_C4_trim_correctness 70 [5, 50] 2 (by decide) (by decide)
    (by decide)
  exact ⟨h.1, h.2.2.2⟩

end ADOS
